import Mathlib

set_option maxRecDepth 4000

/-!
Shallow embedding of the grid-patrol solver (src/bin/day6.rs): a guard
patrolling a map of tiles, cycle detection via obstacle-approach history,
and the brute-force loop search over obstacle placements.

Machine integers (`usize`, `isize`) are modelled as `Nat` and `Int`; the
only overflow behaviour the solver relies on is `checked_add_signed`
returning `None` when the sum is negative, which is modelled explicitly.
The `HashMap<usize, HashSet<Direction>>` of obstacle approaches is
modelled as the set of (index, direction) pairs it contains, kept as a
list: `entry(pos).or_default().insert(dir)` succeeds exactly when the
pair (pos, dir) is not yet present.
-/

/-- Possible errors for this program (the source's error enum). -/
inductive Error
  | InvalidTile
  | NoGuard
  | InfiniteLoop
deriving DecidableEq, Repr

/-- One of the four cardinal directions the guard can face. -/
inductive Direction
  | Up
  | Down
  | Left
  | Right
deriving DecidableEq, Repr, Fintype

/-- A single tile in a map. -/
inductive Tile
  | Ignored
  | Occupied
  | Guard (d : Direction)
deriving DecidableEq, Repr

/-- Direction's TryFrom for characters. -/
def Direction.tryFrom (c : Char) : Except Error Direction :=
  match c with
  | '^' => .ok .Up
  | 'v' => .ok .Down
  | '<' => .ok .Left
  | '>' => .ok .Right
  | _ => .error .InvalidTile

/-- Tile's TryFrom for characters. The source unwraps the inner direction
conversion, which cannot fail on the guard characters; an inner error is
propagated here but is unreachable. -/
def Tile.tryFrom (c : Char) : Except Error Tile :=
  match c with
  | '.' => .ok .Ignored
  | '#' => .ok .Occupied
  | '^' | 'v' | '<' | '>' =>
    match Direction.tryFrom c with
    | .ok d => .ok (.Guard d)
    | .error e => .error e
  | _ => .error .InvalidTile

/-- A map of tiles: the flattened row-major tile sequence plus the row
width taken from the first input row. -/
structure Map where
  tiles : List Tile
  width : Nat
deriving DecidableEq, Repr

/-- A guard patrolling a map: facing direction, current flat position,
the visited positions in push order, and the obstacle-approach history
as the set of (obstacle index, approach direction) pairs. -/
structure Guard where
  direction : Direction
  position : Nat
  visited : List Nat
  obstacles : List (Nat × Direction)
deriving DecidableEq, Repr

/-- Guard::find — scan the tiles for the first guard tile and build the
initial guard state (empty visited list and obstacle history; the
source's capacity pre-allocation has no semantic content). -/
def findGuardAux : List Tile → Nat → Option Guard
  | [], _ => none
  | .Guard d :: _, i => some ⟨d, i, [], []⟩
  | _ :: ts, i => findGuardAux ts (i + 1)

/-- Attempts to detect a guard in the map. -/
def Guard.find (m : Map) : Option Guard :=
  findGuardAux m.tiles 0

/-- Guard::turn — one clockwise step. -/
def Direction.turn : Direction → Direction
  | .Up => .Right
  | .Down => .Left
  | .Left => .Up
  | .Right => .Down

/-- Guard::compute_offset — signed offset to the adjacent tile in the
current direction. -/
def Guard.computeOffset (g : Guard) (m : Map) : Int :=
  match g.direction with
  | .Up => -(m.width : Int)
  | .Down => (m.width : Int)
  | .Left => -1
  | .Right => 1

/-- usize::checked_add_signed — `none` exactly when the mathematical sum
is negative (the wrap below zero that the source guards against). -/
def checkedAddSigned (p : Nat) (o : Int) : Option Nat :=
  if (p : Int) + o < 0 then none else some ((p : Int) + o).toNat

/-- Guard::is_out_of_bounds — vertical moves are checked against the
total tile count, horizontal moves against a change of row. -/
def Guard.isOutOfBounds (g : Guard) (nextPos : Nat) (m : Map) : Bool :=
  match g.direction with
  | .Up | .Down => decide (m.tiles.length ≤ nextPos)
  | .Left | .Right => decide (nextPos / m.width ≠ g.position / m.width)

/-- Guard::log_obstacle — record an (obstacle, direction) approach; an
already-present pair signals an infinite loop. -/
def Guard.logObstacle (g : Guard) (pos : Nat) (d : Direction) : Except Error Guard :=
  if (pos, d) ∈ g.obstacles then .error .InfiniteLoop
  else .ok { g with obstacles := (pos, d) :: g.obstacles }

/-- Outcome of one iteration of the patrol loop. -/
inductive StepResult
  | exited (g : Guard)
  | looped
  | next (g : Guard)
deriving DecidableEq, Repr

/-- One iteration of the body of Guard::patrol. -/
def patrolStep (m : Map) (g : Guard) : StepResult :=
  match checkedAddSigned g.position (g.computeOffset m) with
  | none => .exited g
  | some nextPos =>
    if g.isOutOfBounds nextPos m then
      .exited { g with visited := g.visited ++ [g.position] }
    else if m.tiles.getD nextPos .Ignored = .Occupied then
      match g.logObstacle nextPos g.direction with
      | .error _ => .looped
      | .ok g' => .next { g' with direction := g'.direction.turn }
    else
      .next { g with visited := g.visited ++ [g.position], position := nextPos }

/-- Guard::patrol, fuel-indexed: `none` means the fuel ran out before the
loop terminated (the source's loop has no fuel; termination is proved
separately for maps of positive width). -/
def patrolAux (m : Map) : Nat → Guard → Option (Except Error Guard)
  | 0, _ => none
  | n + 1, g =>
    match patrolStep m g with
    | .exited g' => some (.ok g')
    | .looped => some (.error .InfiniteLoop)
    | .next g' => patrolAux m n g'

/-- Guard::unique_visits — the distinct visited positions (a hash set in
the source; modelled as deduplication of the visited list). -/
def Guard.uniqueVisits (g : Guard) : List Nat :=
  g.visited.dedup

/-- Write one tile of a map (the source's indexed assignment; candidate
indices are in bounds in every use proved below). -/
def setTile (m : Map) (i : Nat) (t : Tile) : Map :=
  { m with tiles := m.tiles.set i t }

/-- Does a patrol result signal a detected infinite loop
(the source's pattern match on Err(Error::InfiniteLoop))? -/
def isInfiniteLoop : Option (Except Error Guard) → Bool
  | some (.error .InfiniteLoop) => true
  | _ => false

/-- count_loops — for each candidate tile other than the guard's start,
temporarily occupy it, re-run a fresh clone of the guard, count the runs
that end in a detected loop, and put the tile back. -/
def countLoops (tiles : List Nat) (m : Map) (fuel : Nat) : Except Error (Map × Nat) :=
  match Guard.find m with
  | none => .error .NoGuard
  | some baseGuard =>
    .ok (tiles.foldl
      (fun acc tile =>
        if tile = baseGuard.position then acc
        else
          let m' := setTile acc.1 tile .Occupied
          let looped := isInfiniteLoop (patrolAux m' fuel baseGuard)
          (setTile m' tile .Ignored, if looped then acc.2 + 1 else acc.2))
      (m, 0))

/-- Convert one row of characters to tiles, stopping at the first
invalid character (the semantics of collecting an iterator of results). -/
def tryFromRow : List Char → Except Error (List Tile)
  | [] => .ok []
  | c :: cs =>
    match Tile.tryFrom c with
    | .error e => .error e
    | .ok t =>
      match tryFromRow cs with
      | .error e => .error e
      | .ok ts => .ok (t :: ts)

/-- Convert all rows, stopping at the first invalid character. -/
def tryFromRows : List (List Char) → Except Error (List (List Tile))
  | [] => .ok []
  | row :: rows =>
    match tryFromRow row with
    | .error e => .error e
    | .ok trow =>
      match tryFromRows rows with
      | .error e => .error e
      | .ok trows => .ok (trow :: trows)

/-- Map::new — split on newlines, convert every character, take the
width from the first row, and flatten. -/
def Map.new (s : List Char) : Except Error Map :=
  match tryFromRows (s.splitOn '\n') with
  | .error e => .error e
  | .ok tiless => .ok ⟨tiless.flatten, (tiless.headD []).length⟩

/-- The 10×10 sample map from the source's tests. -/
def testData : List Char :=
  ("....#....." ++ "\n" ++
   ".........#" ++ "\n" ++
   ".........." ++ "\n" ++
   "..#......." ++ "\n" ++
   ".......#.." ++ "\n" ++
   ".........." ++ "\n" ++
   ".#..^....." ++ "\n" ++
   "........#." ++ "\n" ++
   "#........." ++ "\n" ++
   "......#...").toList

/-- Is a tile the starting-guard tile? -/
def isGuardTile : Tile → Bool
  | .Guard _ => true
  | _ => false

/-- All (index, direction) pairs an obstacle bump can log: an obstacle
approach always targets an index inside the tile sequence. -/
def validPairs (m : Map) : Finset (Nat × Direction) :=
  Finset.range m.tiles.length ×ˢ Finset.univ

/-- The valid pairs not yet in the approach history; strictly decreases
at every successful obstacle bump. -/
def freePairs (m : Map) (g : Guard) : Nat :=
  ((validPairs m).filter (fun pr => pr ∉ g.obstacles)).card

/-- Distance to the exit ahead; strictly decreases at every move. -/
def distM (m : Map) (g : Guard) : Nat :=
  match g.direction with
  | .Up => g.position + 1
  | .Left => g.position + 1
  | .Down => m.tiles.length - g.position
  | .Right => m.width - g.position % m.width

/-- Reachability of walker states along continuing patrol iterations. -/
inductive Reaches (m : Map) : Guard → Guard → Prop
  | refl (g : Guard) : Reaches m g g
  | tail {g g' g'' : Guard} :
      Reaches m g g' → patrolStep m g' = .next g'' → Reaches m g g''

/-- The run invariant: the walker stands inside the grid on a
non-obstacle tile and has only visited such tiles. -/
def RunInv (m : Map) (g : Guard) : Prop :=
  g.position < m.tiles.length ∧
  m.tiles.getD g.position .Ignored ≠ .Occupied ∧
  ∀ p ∈ g.visited, p < m.tiles.length ∧ m.tiles.getD p .Ignored ≠ .Occupied

/-! ### Case analysis of one patrol-loop iteration -/

/-- A continuing iteration is either an obstacle bump (log the approach,
turn clockwise, stay in place) or a move to the candidate tile. -/
theorem patrolStep_next_cases {m : Map} {g g' : Guard}
    (h : patrolStep m g = .next g') :
    (∃ nextPos,
      checkedAddSigned g.position (g.computeOffset m) = some nextPos ∧
      g.isOutOfBounds nextPos m = false ∧
      m.tiles.getD nextPos .Ignored = .Occupied ∧
      (nextPos, g.direction) ∉ g.obstacles ∧
      g' = { g with direction := g.direction.turn,
                    obstacles := (nextPos, g.direction) :: g.obstacles }) ∨
    (∃ nextPos,
      checkedAddSigned g.position (g.computeOffset m) = some nextPos ∧
      g.isOutOfBounds nextPos m = false ∧
      m.tiles.getD nextPos .Ignored ≠ .Occupied ∧
      g' = { g with visited := g.visited ++ [g.position],
                    position := nextPos }) := by
  unfold patrolStep at h
  split at h
  · exact absurd h (by simp)
  rename_i nextPos hadd
  split at h
  · exact absurd h (by simp)
  rename_i hob
  split at h
  · rename_i ht
    unfold Guard.logObstacle at h
    split at h
    · exact absurd h (by simp)
    rename_i g2 hok
    left
    split at hok
    · exact absurd hok (by simp)
    rename_i hmem
    simp only [Except.ok.injEq] at hok
    subst hok
    simp only [StepResult.next.injEq] at h
    exact ⟨nextPos, hadd, by simpa using hob, ht, hmem, h.symm⟩
  · rename_i ht
    right
    simp only [StepResult.next.injEq] at h
    exact ⟨nextPos, hadd, by simpa using hob, ht, h.symm⟩

/-- An exiting iteration is either the underflow break (state unchanged)
or the out-of-bounds exit (current position recorded). -/
theorem patrolStep_exited_cases {m : Map} {g g' : Guard}
    (h : patrolStep m g = .exited g') :
    (checkedAddSigned g.position (g.computeOffset m) = none ∧ g' = g) ∨
    (∃ nextPos,
      checkedAddSigned g.position (g.computeOffset m) = some nextPos ∧
      g.isOutOfBounds nextPos m = true ∧
      g' = { g with visited := g.visited ++ [g.position] }) := by
  unfold patrolStep at h
  split at h
  · rename_i hadd
    simp only [StepResult.exited.injEq] at h
    exact Or.inl ⟨hadd, h.symm⟩
  rename_i nextPos hadd
  split at h
  · rename_i hob
    simp only [StepResult.exited.injEq] at h
    exact Or.inr ⟨nextPos, hadd, hob, h.symm⟩
  split at h
  · unfold Guard.logObstacle at h
    split at h
    · exact absurd h (by simp)
    · exact absurd h (by simp)
  · exact absurd h (by simp)


/-- A loop-detecting iteration is exactly an obstacle bump whose
(candidate index, heading) pair is already in the approach history. -/
theorem patrolStep_looped_cases {m : Map} {g : Guard}
    (h : patrolStep m g = .looped) :
    ∃ nextPos,
      checkedAddSigned g.position (g.computeOffset m) = some nextPos ∧
      g.isOutOfBounds nextPos m = false ∧
      m.tiles.getD nextPos .Ignored = .Occupied ∧
      (nextPos, g.direction) ∈ g.obstacles := by
  unfold patrolStep at h
  split at h
  · exact absurd h (by simp)
  rename_i nextPos hadd
  split at h
  · exact absurd h (by simp)
  rename_i hob
  split at h
  · rename_i ht
    unfold Guard.logObstacle at h
    split at h
    · rename_i e herr
      split at herr
      · rename_i hmem
        exact ⟨nextPos, hadd, by simpa using hob, ht, hmem⟩
      · exact absurd herr (by simp)
    · exact absurd h (by simp)
  · exact absurd h (by simp)

/-- An exiting iteration makes the whole patrol terminate successfully. -/
theorem patrolAux_of_exited {m : Map} {g g' : Guard}
    (h : patrolStep m g = .exited g') (n : Nat) :
    patrolAux m (n + 1) g = some (.ok g') := by
  unfold patrolAux
  rw [h]

/-! ### C9: heading rotation -/

/-- Claim C9: the clockwise rotation follows the fixed 4-cycle order
Up→Right→Down→Left→Up, and applying it four times is the identity for
every starting heading. -/
theorem turn_four_cycle :
    Direction.turn .Up = .Right ∧ Direction.turn .Right = .Down ∧
    Direction.turn .Down = .Left ∧ Direction.turn .Left = .Up ∧
    ∀ d : Direction, d.turn.turn.turn.turn = d := by
  refine ⟨rfl, rfl, rfl, rfl, fun d => ?_⟩
  cases d <;> rfl

/-! ### C1: recording the exit tile -/

/-- Claim C1 counterexample: on the 1×1 map holding only the guard facing
up, the candidate index computation underflows, the patrol exits the
grid at once, and the tile the guard exits from (index 0) is not
recorded among the visited indices — the claim that the exit tile is
always counted fails here. -/
theorem exit_on_underflow_skips_visit_counterexample :
    patrolAux ⟨[.Guard .Up], 1⟩ 1 ⟨.Up, 0, [], []⟩ =
      some (.ok ⟨.Up, 0, [], []⟩) ∧
    0 ∉ (Guard.mk .Up 0 [] []).visited := by
  constructor
  · rfl
  · decide

/-- Claim C1 (amended): when the signed candidate computation succeeds and
the candidate index is out of grid bounds (vertical) or off the current
row (horizontal), the step records the current position as visited and
exits the grid; but when the signed computation underflows below zero
(top-edge exits and a left move from index 0), the step exits the grid
successfully WITHOUT recording the current position, so the exit tile is
counted among the visited indices only on non-underflow exits. -/
theorem exit_recording_amended (m : Map) (g : Guard) :
    (∀ nextPos,
      checkedAddSigned g.position (g.computeOffset m) = some nextPos →
      g.isOutOfBounds nextPos m = true →
      patrolStep m g = .exited { g with visited := g.visited ++ [g.position] }) ∧
    (checkedAddSigned g.position (g.computeOffset m) = none →
      patrolStep m g = .exited g) := by
  constructor
  · intro nextPos hadd hob
    cases hstep : patrolStep m g with
    | exited g2 =>
      rcases patrolStep_exited_cases hstep with ⟨h1, _⟩ | ⟨np, h1, _, h3⟩
      · rw [hadd] at h1; cases h1
      · rw [h3]
    | looped =>
      rcases patrolStep_looped_cases hstep with ⟨np, h1, h2, _⟩
      rw [hadd] at h1
      injection h1 with e
      subst e
      rw [hob] at h2
      cases h2
    | next g2 =>
      rcases patrolStep_next_cases hstep with
        ⟨np, h1, h2, _⟩ | ⟨np, h1, h2, _⟩ <;>
      · rw [hadd] at h1
        injection h1 with e
        subst e
        rw [hob] at h2
        cases h2
  · intro hadd
    cases hstep : patrolStep m g with
    | exited g2 =>
      rcases patrolStep_exited_cases hstep with ⟨_, h2⟩ | ⟨np, h1, _, _⟩
      · rw [h2]
      · rw [hadd] at h1; cases h1
    | looped =>
      rcases patrolStep_looped_cases hstep with ⟨np, h1, _⟩
      rw [hadd] at h1; cases h1
    | next g2 =>
      rcases patrolStep_next_cases hstep with
        ⟨np, h1, _⟩ | ⟨np, h1, _⟩ <;>
      · rw [hadd] at h1; cases h1

/-- Claim C1 witness: the amended theorem applied to a concrete guard one
step above the bottom edge of a 1×2 map, walking down. -/
theorem exit_recording_amended_witness :
    patrolStep ⟨[.Guard .Down, .Ignored], 1⟩ ⟨.Down, 1, [0], []⟩ =
      .exited ⟨.Down, 1, [0, 1], []⟩ :=
  (exit_recording_amended ⟨[.Guard .Down, .Ignored], 1⟩ ⟨.Down, 1, [0], []⟩).1
    2 (by decide) (by decide)

/-! ### C2: obstacle bumps -/

/-- Claim C2: when the candidate tile is an obstacle, the step records the
(candidate index, current heading) pair in the approach history; if that
exact pair was already present the run signals the detected cycle, and
otherwise the heading rotates one clockwise step while the position and
the visited list stay unchanged. The width hypothesis keeps the
statement inside the region where the source's row computation is
defined. -/
theorem obstacle_bump_logs_and_turns (m : Map) (g : Guard) (nextPos : Nat)
    ( _hw : 0 < m.width)
    (hadd : checkedAddSigned g.position (g.computeOffset m) = some nextPos)
    (hob : g.isOutOfBounds nextPos m = false)
    (ht : m.tiles.getD nextPos .Ignored = .Occupied) :
    ((nextPos, g.direction) ∈ g.obstacles → patrolStep m g = .looped) ∧
    ((nextPos, g.direction) ∉ g.obstacles →
      patrolStep m g = .next { g with
        direction := g.direction.turn,
        obstacles := (nextPos, g.direction) :: g.obstacles }) := by
  constructor <;> intro hmem <;>
  · cases hstep : patrolStep m g with
    | exited g2 =>
      rcases patrolStep_exited_cases hstep with ⟨h1, _⟩ | ⟨np, h1, h2, _⟩
      · rw [hadd] at h1; cases h1
      · rw [hadd] at h1
        injection h1 with e
        subst e
        rw [hob] at h2
        cases h2
    | looped =>
      rcases patrolStep_looped_cases hstep with ⟨np, h1, _, _, h4⟩
      first
      | rfl
      | (rw [hadd] at h1
         injection h1 with e
         subst e
         exact absurd h4 hmem)
    | next g2 =>
      rcases patrolStep_next_cases hstep with
        ⟨np, h1, _, _, h4, h5⟩ | ⟨np, h1, _, h3, _⟩
      · rw [hadd] at h1
        injection h1 with e
        subst e
        first
        | exact absurd hmem h4
        | rw [h5]
      · rw [hadd] at h1
        injection h1 with e
        subst e
        exact absurd ht h3

/-- Claim C2 witness: a concrete guard facing right into an obstacle it
has not approached before turns clockwise in place and logs the pair. -/
theorem obstacle_bump_logs_and_turns_witness :
    patrolStep ⟨[.Guard .Right, .Occupied], 2⟩ ⟨.Right, 0, [], []⟩ =
      .next ⟨.Down, 0, [], [(1, .Right)]⟩ :=
  (obstacle_bump_logs_and_turns ⟨[.Guard .Right, .Occupied], 2⟩
    ⟨.Right, 0, [], []⟩ 1 (by decide) (by decide) (by decide) (by decide)).2
    (by decide)


/-! ### C7: guard detection -/

/-- A list with exactly one element satisfying a test holds such an
element at a unique index. -/
theorem countP_one_getElem_unique {α : Type} (p : α → Bool) :
    ∀ (l : List α) (i j : Nat) (x y : α), l.countP p = 1 →
      l[i]? = some x → p x = true → l[j]? = some y → p y = true → i = j := by
  intro l
  induction l with
  | nil => intro i j x y _ hx; simp at hx
  | cons a l ih =>
    intro i j x y hc hx hpx hy hpy
    rw [List.countP_cons] at hc
    by_cases hpa : p a = true
    · have hl0 : l.countP p = 0 := by rw [if_pos hpa] at hc; omega
      have hnone : ∀ b ∈ l, ¬ p b = true := List.countP_eq_zero.mp hl0
      match i, j with
      | 0, 0 => rfl
      | 0, j + 1 =>
        rw [List.getElem?_cons_succ] at hy
        exact absurd hpy (hnone y (List.getElem?_mem hy))
      | i + 1, 0 =>
        rw [List.getElem?_cons_succ] at hx
        exact absurd hpx (hnone x (List.getElem?_mem hx))
      | i + 1, j + 1 =>
        rw [List.getElem?_cons_succ] at hx
        exact absurd hpx (hnone x (List.getElem?_mem hx))
    · have hl1 : l.countP p = 1 := by rw [if_neg hpa] at hc; omega
      match i, j with
      | 0, _ =>
        rw [List.getElem?_cons_zero] at hx
        injection hx with e
        subst e
        exact absurd hpx hpa
      | _ + 1, 0 =>
        rw [List.getElem?_cons_zero] at hy
        injection hy with e
        subst e
        exact absurd hpy hpa
      | i + 1, j + 1 =>
        rw [List.getElem?_cons_succ] at hx hy
        have := ih i j x y hl1 hx hpx hy hpy
        omega

/-- The guard scan yields an empty initial state whose position holds
the guard tile it was built from. -/
theorem findGuardAux_spec :
    ∀ (ts : List Tile) (i : Nat) (g : Guard), findGuardAux ts i = some g →
      g.visited = [] ∧ g.obstacles = [] ∧ i ≤ g.position ∧
      ts[g.position - i]? = some (.Guard g.direction) := by
  intro ts
  induction ts with
  | nil => intro i g h; simp [findGuardAux] at h
  | cons t ts ih =>
    intro i g h
    match t with
    | .Guard d =>
      unfold findGuardAux at h
      injection h with e
      subst e
      simp
    | .Ignored =>
      unfold findGuardAux at h
      obtain ⟨h1, h2, h3, h4⟩ := ih (i + 1) g h
      refine ⟨h1, h2, by omega, ?_⟩
      have e : g.position - i = (g.position - (i + 1)) + 1 := by omega
      rw [e, List.getElem?_cons_succ]
      exact h4
    | .Occupied =>
      unfold findGuardAux at h
      obtain ⟨h1, h2, h3, h4⟩ := ih (i + 1) g h
      refine ⟨h1, h2, by omega, ?_⟩
      have e : g.position - i = (g.position - (i + 1)) + 1 := by omega
      rw [e, List.getElem?_cons_succ]
      exact h4

/-- The guard scan fails exactly when no guard tile is present. -/
theorem findGuardAux_none_iff :
    ∀ (ts : List Tile) (i : Nat),
      findGuardAux ts i = none ↔ ∀ t ∈ ts, isGuardTile t = false := by
  intro ts
  induction ts with
  | nil => intro i; simp [findGuardAux]
  | cons t ts ih =>
    intro i
    match t with
    | .Guard d => simp [findGuardAux, isGuardTile]
    | .Ignored => simp [findGuardAux, isGuardTile, ih (i + 1)]
    | .Occupied => simp [findGuardAux, isGuardTile, ih (i + 1)]

/-- The guard scan returns the first guard tile: every index it scanned
before the found position holds a non-guard tile. -/
theorem findGuardAux_first :
    ∀ (ts : List Tile) (i : Nat) (g : Guard), findGuardAux ts i = some g →
      ∀ j, j < g.position - i → ∀ t, ts[j]? = some t →
        isGuardTile t = false := by
  intro ts
  induction ts with
  | nil => intro i g h; simp [findGuardAux] at h
  | cons t ts ih =>
    intro i g h j hj tj hjt
    match t with
    | .Guard d =>
      unfold findGuardAux at h
      injection h with e
      subst e
      exact absurd (show j < i - i from hj) (by omega)
    | .Ignored =>
      unfold findGuardAux at h
      obtain ⟨-, -, hle, -⟩ := findGuardAux_spec ts (i + 1) g h
      match j with
      | 0 =>
        rw [List.getElem?_cons_zero] at hjt
        injection hjt with e
        rw [← e]
        rfl
      | j + 1 =>
        rw [List.getElem?_cons_succ] at hjt
        exact ih (i + 1) g h j (by omega) tj hjt
    | .Occupied =>
      unfold findGuardAux at h
      obtain ⟨-, -, hle, -⟩ := findGuardAux_spec ts (i + 1) g h
      match j with
      | 0 =>
        rw [List.getElem?_cons_zero] at hjt
        injection hjt with e
        rw [← e]
        rfl
      | j + 1 =>
        rw [List.getElem?_cons_succ] at hjt
        exact ih (i + 1) g h j (by omega) tj hjt

/-- Claim C7 counterexample: on a map holding two guard tiles, the lookup
does not fail — it succeeds with the first guard tile — refuting the
claim that construction fails for more than one guard tile. -/
theorem find_two_guards_counterexample :
    (Map.mk [.Guard .Up, .Guard .Down] 2).tiles.countP isGuardTile = 2 ∧
    Guard.find ⟨[.Guard .Up, .Guard .Down], 2⟩ ≠ none := by
  constructor
  · decide
  · decide

/-- Claim C7 (amended): the guard lookup fails exactly when the map has
no guard tile; on a map with exactly one guard tile it succeeds with
that tile's index and heading; and any successful lookup (so also with
several guard tiles, where the claim wrongly asserts failure) returns
the first guard tile's index and heading with empty histories: the
returned position holds a guard tile and no earlier index does. -/
theorem guard_find_spec (m : Map) :
    (Guard.find m = none ↔ m.tiles.countP isGuardTile = 0) ∧
    (∀ i d, m.tiles.countP isGuardTile = 1 →
      m.tiles[i]? = some (.Guard d) → Guard.find m = some ⟨d, i, [], []⟩) ∧
    (∀ g, Guard.find m = some g →
      m.tiles[g.position]? = some (.Guard g.direction) ∧
      g.visited = [] ∧ g.obstacles = [] ∧
      ∀ j, j < g.position → ∀ t, m.tiles[j]? = some t →
        isGuardTile t = false) := by
  have hspec := findGuardAux_spec m.tiles 0
  have hnone := findGuardAux_none_iff m.tiles 0
  refine ⟨?_, ?_, ?_⟩
  · rw [Guard.find, hnone, List.countP_eq_zero]
    simp
  · intro i d hc hi
    cases hfind : Guard.find m with
    | none =>
      rw [Guard.find, hnone] at hfind
      have : isGuardTile (.Guard d) = false := hfind _ (List.getElem?_mem hi)
      simp [isGuardTile] at this
    | some g =>
      obtain ⟨hv, ho, _, hg⟩ := hspec g hfind
      rw [Nat.sub_zero] at hg
      have hij : g.position = i :=
        countP_one_getElem_unique isGuardTile m.tiles g.position i _ _ hc hg
          (by simp [isGuardTile]) hi (by simp [isGuardTile])
      subst hij
      rw [hi] at hg
      injection hg with e
      injection e with e2
      cases g
      simp_all
  · intro g hfind
    obtain ⟨hv, ho, -, hg⟩ := hspec g hfind
    rw [Nat.sub_zero] at hg
    refine ⟨hg, hv, ho, ?_⟩
    intro j hj t hjt
    exact findGuardAux_first m.tiles 0 g hfind j (by omega) t hjt

/-- Claim C7 witness: the amended theorem applied to a concrete
one-guard map, and its success branch applied to a concrete two-guard
map, where the returned index 0 holds a guard tile and no earlier index
does — the first guard tile. -/
theorem guard_find_spec_witness :
    Guard.find ⟨[.Ignored, .Guard .Left], 2⟩ = some ⟨.Left, 1, [], []⟩ ∧
    ((Map.mk [.Guard .Up, .Guard .Down] 2).tiles[
        (Guard.mk .Up 0 [] []).position]? =
      some (.Guard (Guard.mk .Up 0 [] []).direction) ∧
      (Guard.mk .Up 0 [] []).visited = [] ∧
      (Guard.mk .Up 0 [] []).obstacles = [] ∧
      ∀ j, j < (Guard.mk .Up 0 [] []).position →
        ∀ t, (Map.mk [.Guard .Up, .Guard .Down] 2).tiles[j]? = some t →
          isGuardTile t = false) :=
  ⟨(guard_find_spec ⟨[.Ignored, .Guard .Left], 2⟩).2.1 1 .Left
      (by decide) (by decide),
   (guard_find_spec ⟨[.Guard .Up, .Guard .Down], 2⟩).2.2
      ⟨.Up, 0, [], []⟩ (by decide)⟩

/-! ### C8: map construction -/

/-- Converting a whole row preserves its length. -/
theorem tryFromRow_length :
    ∀ (row : List Char) (trow : List Tile),
      tryFromRow row = .ok trow → trow.length = row.length := by
  intro row
  induction row with
  | nil =>
    intro trow h
    injection h with e
    rw [← e]
    rfl
  | cons c row ih =>
    intro trow h
    unfold tryFromRow at h
    cases hc : Tile.tryFrom c with
    | error e => rw [hc] at h; cases h
    | ok t =>
      rw [hc] at h
      cases hrest : tryFromRow row with
      | error e => rw [hrest] at h; cases h
      | ok ts =>
        rw [hrest] at h
        injection h with e
        rw [← e]
        simp [ih ts hrest]

/-- Converting all rows preserves every row length. -/
theorem tryFromRows_lengths :
    ∀ (rows : List (List Char)) (tiless : List (List Tile)),
      tryFromRows rows = .ok tiless →
      tiless.map List.length = rows.map List.length := by
  intro rows
  induction rows with
  | nil =>
    intro tiless h
    injection h with e
    rw [← e]
    rfl
  | cons row rows ih =>
    intro tiless h
    unfold tryFromRows at h
    cases hc : tryFromRow row with
    | error e => rw [hc] at h; cases h
    | ok trow =>
      rw [hc] at h
      cases hrest : tryFromRows rows with
      | error e => rw [hrest] at h; cases h
      | ok trows =>
        rw [hrest] at h
        injection h with e
        rw [← e]
        simp [ih trows hrest, tryFromRow_length row trow hc]

/-- Claim C8 counterexample: the ragged input "..\n." (first row of length
2, second of length 1) is accepted by Map::new and yields a map whose
tile count 3 is not a multiple of its width 2 — the rectangularity
invariant the claim asserts does not hold for every constructed map. -/
theorem map_new_ragged_counterexample :
    Map.new ['.', '.', '\n', '.'] =
      .ok ⟨[.Ignored, .Ignored, .Ignored], 2⟩ ∧
    ¬ ∃ h, ([Tile.Ignored, .Ignored, .Ignored].length) =
      (Map.mk [.Ignored, .Ignored, .Ignored] 2).width * h := by
  constructor
  · rfl
  · rintro ⟨h, e⟩
    simp at e
    omega

/-- Claim C8 (amended): a successful Map::new fixes the width to the first
input row's length and the tile count to the total number of row
characters; it does not enforce rectangularity or positive width, so
ragged input still constructs a map (whose tile count then need not be
width × height). -/
theorem map_new_shape :
    ∀ (s : List Char) (mr : Map), Map.new s = .ok mr →
      mr.width = ((s.splitOn '\n').headD []).length ∧
      mr.tiles.length = ((s.splitOn '\n').map List.length).sum := by
  intro s mr h
  unfold Map.new at h
  cases hm : tryFromRows (s.splitOn '\n') with
  | error e => rw [hm] at h; cases h
  | ok tiless =>
    rw [hm] at h
    injection h with e
    subst e
    have hlen := tryFromRows_lengths _ _ hm
    constructor
    · show (tiless.headD []).length = _
      cases hrows : s.splitOn '\n' with
      | nil =>
        rw [hrows] at hlen
        cases tiless with
        | nil => rfl
        | cons a b => simp at hlen
      | cons r rs =>
        rw [hrows] at hlen
        cases tiless with
        | nil => simp at hlen
        | cons a b =>
          simp only [List.map_cons, List.cons.injEq] at hlen
          simpa using hlen.1
    · show (tiless.flatten).length = _
      rw [List.length_flatten, hlen]

/-- Claim C8 witness: the amended theorem applied to the ragged input. -/
theorem map_new_shape_witness :
    (Map.mk [.Ignored, .Ignored, .Ignored] 2).width =
      (((['.', '.', '\n', '.'] : List Char).splitOn '\n').headD []).length ∧
    (Map.mk [.Ignored, .Ignored, .Ignored] 2).tiles.length =
      (((['.', '.', '\n', '.'] : List Char).splitOn '\n').map List.length).sum :=
  map_new_shape ['.', '.', '\n', '.'] ⟨[.Ignored, .Ignored, .Ignored], 2⟩ (by rfl)

/-! ### C10: the guard never stands on an obstacle -/

/-- Claim C10: if the tile at the walker's starting position is the guard
tile, then at every state reachable during the patrol the walker's
position does not index an Occupied tile: an obstacle ahead causes a
turn in place, never a move onto the obstacle. -/
theorem patrol_avoids_obstacles (m : Map) (g0 g : Guard) (d : Direction)
    (h0 : m.tiles.getD g0.position .Ignored = .Guard d)
    (hr : Reaches m g0 g) :
    m.tiles.getD g.position .Ignored ≠ .Occupied := by
  induction hr with
  | refl =>
    rw [h0]
    intro e
    cases e
  | tail hr hstep ih =>
    rcases patrolStep_next_cases hstep with
      ⟨np, _, _, _, _, h5⟩ | ⟨np, _, _, h3, h5⟩
    · rw [h5]
      exact ih
    · rw [h5]
      exact h3

/-- Claim C10 witness: after one obstacle bump on a concrete 1×2 map, the
reached state still stands on a non-obstacle tile. -/
theorem patrol_avoids_obstacles_witness :
    (Map.mk [.Guard .Right, .Occupied] 2).tiles.getD
      (Guard.mk .Down 0 [] [(1, .Right)]).position .Ignored ≠ .Occupied :=
  patrol_avoids_obstacles ⟨[.Guard .Right, .Occupied], 2⟩
    ⟨.Right, 0, [], []⟩ ⟨.Down, 0, [], [(1, .Right)]⟩ .Right (by decide)
    (.tail (.refl _) (by decide))

/-! ### C5: termination of the patrol loop -/

/-- An index whose tile reads Occupied is inside the tile sequence. -/
theorem lt_length_of_getD_occupied {m : Map} {i : Nat}
    (h : m.tiles.getD i .Ignored = .Occupied) : i < m.tiles.length := by
  by_contra hge
  push_neg at hge
  rw [List.getD_eq_getElem?_getD, List.getElem?_eq_none hge] at h
  cases h

/-- Logging a fresh valid pair shrinks the set of free pairs. -/
theorem freePairs_cons_lt (m : Map) (L : List (Nat × Direction))
    (q : Nat × Direction) (hq : q.1 < m.tiles.length) (hmem : q ∉ L) :
    ((validPairs m).filter (fun pr => pr ∉ q :: L)).card <
    ((validPairs m).filter (fun pr => pr ∉ L)).card := by
  apply Finset.card_lt_card
  rw [Finset.ssubset_iff_of_subset]
  · refine ⟨q, ?_, ?_⟩
    · rw [Finset.mem_filter]
      refine ⟨?_, hmem⟩
      rw [validPairs, Finset.mem_product]
      exact ⟨Finset.mem_range.mpr hq, Finset.mem_univ _⟩
    · rw [Finset.mem_filter]
      rintro ⟨-, hnot⟩
      exact hnot (List.mem_cons_self q L)
  · apply Finset.monotone_filter_right
    intro pr hpr hL
    exact hpr (List.mem_cons_of_mem q hL)

/-- Every continuing iteration decreases the lexicographic measure
(free pairs, distance to exit), provided the width is positive. -/
theorem patrolStep_decrease {m : Map} {g g' : Guard} (hw : 0 < m.width)
    (h : patrolStep m g = .next g') :
    freePairs m g' < freePairs m g ∨
    (freePairs m g' = freePairs m g ∧ distM m g' < distM m g) := by
  rcases patrolStep_next_cases h with
    ⟨np, hadd, hob, ht, hmem, h5⟩ | ⟨np, hadd, hob, ht, h5⟩
  · left
    subst h5
    exact freePairs_cons_lt m g.obstacles (np, g.direction)
      (lt_length_of_getD_occupied ht) hmem
  · right
    subst h5
    refine ⟨rfl, ?_⟩
    unfold checkedAddSigned at hadd
    split at hadd
    · cases hadd
    rename_i hpos
    injection hadd with e
    cases hdir : g.direction with
    | Up =>
      simp only [Guard.computeOffset, hdir] at hpos e
      simp only [distM, hdir]
      show np + 1 < g.position + 1
      omega
    | Left =>
      simp only [Guard.computeOffset, hdir] at hpos e
      simp only [distM, hdir]
      show np + 1 < g.position + 1
      omega
    | Down =>
      simp only [Guard.computeOffset, hdir] at hpos e
      simp only [Guard.isOutOfBounds, hdir] at hob
      simp only [decide_eq_false_iff_not, Nat.not_le] at hob
      simp only [distM, hdir]
      show m.tiles.length - np < m.tiles.length - g.position
      omega
    | Right =>
      simp only [Guard.computeOffset, hdir] at hpos e
      simp only [Guard.isOutOfBounds, hdir] at hob
      simp only [decide_eq_false_iff_not, Decidable.not_not] at hob
      simp only [distM, hdir]
      show m.width - np % m.width < m.width - g.position % m.width
      have hnp : np = g.position + 1 := by omega
      subst hnp
      have hdm1 := Nat.div_add_mod g.position m.width
      have hdm2 := Nat.div_add_mod (g.position + 1) m.width
      rw [hob] at hdm2
      have hr1 : g.position % m.width < m.width := Nat.mod_lt _ hw
      have hr2 : (g.position + 1) % m.width < m.width := Nat.mod_lt _ hw
      omega

/-- The patrol loop only ever terminates with success or with the
detected-cycle error, never with any other error. -/
theorem patrolAux_result_shape :
    ∀ (n : Nat) (m : Map) (g : Guard) (r : Except Error Guard),
      patrolAux m n g = some r →
      (∃ g', r = .ok g') ∨ r = .error .InfiniteLoop := by
  intro n
  induction n with
  | zero => intro m g r h; cases h
  | succ n ih =>
    intro m g r h
    unfold patrolAux at h
    cases hstep : patrolStep m g with
    | exited g' =>
      rw [hstep] at h
      injection h with e
      exact Or.inl ⟨g', e.symm⟩
    | looped =>
      rw [hstep] at h
      injection h with e
      exact Or.inr e.symm
    | next g' =>
      rw [hstep] at h
      exact ih m g' r h

/-- Inner induction for termination: with all smaller free-pair counts
already terminating, induct on the distance to the exit. -/
theorem patrol_term_inner (m : Map) (hw : 0 < m.width) (F : Nat)
    (H : ∀ g', freePairs m g' < F → ∃ n, (patrolAux m n g').isSome) :
    ∀ (D : Nat) (g : Guard), freePairs m g ≤ F → distM m g ≤ D →
      ∃ n, (patrolAux m n g).isSome := by
  intro D
  induction D with
  | zero =>
    intro g hF hD
    cases hstep : patrolStep m g with
    | exited g' => exact ⟨1, by rw [patrolAux_of_exited hstep 0]; rfl⟩
    | looped => exact ⟨1, by unfold patrolAux; rw [hstep]; rfl⟩
    | next g' =>
      rcases patrolStep_decrease hw hstep with hlt | ⟨heq, hdlt⟩
      · obtain ⟨n, hn⟩ := H g' (by omega)
        exact ⟨n + 1, by unfold patrolAux; rw [hstep]; exact hn⟩
      · omega
  | succ D ih =>
    intro g hF hD
    cases hstep : patrolStep m g with
    | exited g' => exact ⟨1, by rw [patrolAux_of_exited hstep 0]; rfl⟩
    | looped => exact ⟨1, by unfold patrolAux; rw [hstep]; rfl⟩
    | next g' =>
      rcases patrolStep_decrease hw hstep with hlt | ⟨heq, hdlt⟩
      · obtain ⟨n, hn⟩ := H g' (by omega)
        exact ⟨n + 1, by unfold patrolAux; rw [hstep]; exact hn⟩
      · obtain ⟨n, hn⟩ := ih g' (by omega) (by omega)
        exact ⟨n + 1, by unfold patrolAux; rw [hstep]; exact hn⟩

/-- Outer induction for termination: induct on the free-pair count. -/
theorem patrol_term_outer (m : Map) (hw : 0 < m.width) :
    ∀ (F : Nat) (g : Guard), freePairs m g ≤ F →
      ∃ n, (patrolAux m n g).isSome := by
  intro F
  induction F with
  | zero =>
    intro g h
    exact patrol_term_inner m hw 0 (fun g' h' => absurd h' (by omega))
      (distM m g) g h le_rfl
  | succ F ihF =>
    intro g h
    exact patrol_term_inner m hw (F + 1) (fun g' h' => ihF g' (by omega))
      (distM m g) g h le_rfl

/-- Claim C5: on every map of positive width the patrol loop terminates in
finitely many steps, and the result is either a successful grid exit or
the detected-cycle error — it can never run unboundedly, because only
finitely many (obstacle index, heading) pairs exist and every repeated
pair stops the run. -/
theorem patrol_terminates (m : Map) (g : Guard) (hw : 0 < m.width) :
    ∃ n r, patrolAux m n g = some r ∧
      ((∃ g', r = .ok g') ∨ r = .error .InfiniteLoop) := by
  obtain ⟨n, hn⟩ := patrol_term_outer m hw (freePairs m g) g le_rfl
  cases hres : patrolAux m n g with
  | none => rw [hres] at hn; cases hn
  | some r => exact ⟨n, r, hres, patrolAux_result_shape n m g r hres⟩

/-- Claim C5 witness: termination applied to a concrete 1×1 map. -/
theorem patrol_terminates_witness :
    0 < (Map.mk [.Guard .Up] 1).width ∧
    ∃ n r, patrolAux ⟨[.Guard .Up], 1⟩ n ⟨.Up, 0, [], []⟩ = some r ∧
      ((∃ g', r = .ok g') ∨ r = .error .InfiniteLoop) :=
  ⟨by decide, patrol_terminates ⟨[.Guard .Up], 1⟩ ⟨.Up, 0, [], []⟩ (by decide)⟩

/-! ### C3 and C4: the loop search -/

/-- Setting an index back to the value it already holds is a no-op. -/
theorem set_of_getElem?_eq {α : Type} :
    ∀ (l : List α) (i : Nat) (a : α), l[i]? = some a → l.set i a = l := by
  intro l
  induction l with
  | nil => intro i a h; cases h
  | cons x xs ih =>
    intro i a h
    match i with
    | 0 =>
      rw [List.getElem?_cons_zero] at h
      injection h with e
      rw [List.set_cons_zero, e]
    | i + 1 =>
      rw [List.getElem?_cons_succ] at h
      rw [List.set_cons_succ, ih i a h]

/-- The scoped occupy-then-restore pair leaves the map unchanged when
the candidate tile currently reads Ignored. -/
theorem setTile_restore (m : Map) (c : Nat)
    (hc : m.tiles[c]? = some .Ignored) :
    setTile (setTile m c .Occupied) c .Ignored = m := by
  unfold setTile
  cases m with
  | mk ts w =>
    simp only [Map.mk.injEq, and_true]
    rw [List.set_set]
    exact set_of_getElem?_eq ts c .Ignored hc

/-- One continuing iteration preserves the run invariant on rectangular
maps of positive width. -/
theorem RunInv_step {m : Map} {g g' : Guard} (hw : 0 < m.width)
    (hdvd : m.width ∣ m.tiles.length)
    (h : patrolStep m g = .next g') (hinv : RunInv m g) : RunInv m g' := by
  obtain ⟨hpos, hcur, hvis⟩ := hinv
  rcases patrolStep_next_cases h with
    ⟨np, hadd, hob, ht, hmem, h5⟩ | ⟨np, hadd, hob, ht, h5⟩
  · subst h5
    exact ⟨hpos, hcur, hvis⟩
  · subst h5
    refine ⟨?_, ht, ?_⟩
    · show np < m.tiles.length
      unfold checkedAddSigned at hadd
      split at hadd
      · cases hadd
      rename_i hnn
      injection hadd with e
      cases hdir : g.direction with
      | Up =>
        simp only [Guard.isOutOfBounds, hdir, decide_eq_false_iff_not,
          Nat.not_le] at hob
        exact hob
      | Down =>
        simp only [Guard.isOutOfBounds, hdir, decide_eq_false_iff_not,
          Nat.not_le] at hob
        exact hob
      | Left =>
        simp only [Guard.computeOffset, hdir] at hnn e
        omega
      | Right =>
        simp only [Guard.computeOffset, hdir] at hnn e
        simp only [Guard.isOutOfBounds, hdir, decide_eq_false_iff_not,
          Decidable.not_not] at hob
        obtain ⟨hgt, hlen⟩ := hdvd
        have hnp : np = g.position + 1 := by omega
        subst hnp
        have h1 : g.position / m.width < hgt := by
          rw [Nat.div_lt_iff_lt_mul hw]
          calc g.position < m.tiles.length := hpos
            _ = m.width * hgt := hlen
            _ = hgt * m.width := Nat.mul_comm m.width hgt
        have h3 : (g.position + 1) / m.width < hgt := by
          rw [hob]
          exact h1
        have hdm := Nat.div_add_mod (g.position + 1) m.width
        have hmod := Nat.mod_lt (g.position + 1) hw
        have h4 : g.position + 1 <
            m.width * ((g.position + 1) / m.width + 1) := by
          have hx : m.width * ((g.position + 1) / m.width + 1) =
              m.width * ((g.position + 1) / m.width) + m.width := by ring
          omega
        have h5 : (g.position + 1) / m.width + 1 ≤ hgt := by omega
        calc g.position + 1 <
            m.width * ((g.position + 1) / m.width + 1) := h4
          _ ≤ m.width * hgt := mul_le_mul_left' h5 m.width
          _ = m.tiles.length := hlen.symm
    · intro p hp
      rw [List.mem_append] at hp
      rcases hp with hp | hp
      · exact hvis p hp
      · rw [List.mem_singleton] at hp
        subst hp
        exact ⟨hpos, hcur⟩

/-- A successfully finishing patrol only ever visits in-bounds,
non-obstacle tiles, starting from an invariant-satisfying state. -/
theorem RunInv_patrolAux_ok :
    ∀ (n : Nat) (m : Map) (g gf : Guard), 0 < m.width →
      m.width ∣ m.tiles.length →
      patrolAux m n g = some (.ok gf) → RunInv m g →
      ∀ p ∈ gf.visited,
        p < m.tiles.length ∧ m.tiles.getD p .Ignored ≠ .Occupied := by
  intro n
  induction n with
  | zero => intro m g gf _ _ h _; cases h
  | succ n ih =>
    intro m g gf hw hdvd h hinv
    unfold patrolAux at h
    cases hstep : patrolStep m g with
    | exited g' =>
      rw [hstep] at h
      injection h with e
      injection e with e2
      subst e2
      obtain ⟨hpos, hcur, hvis⟩ := hinv
      rcases patrolStep_exited_cases hstep with ⟨_, h2⟩ | ⟨np, _, _, h2⟩
      · subst h2
        exact hvis
      · subst h2
        intro p hp
        rw [List.mem_append] at hp
        rcases hp with hp | hp
        · exact hvis p hp
        · rw [List.mem_singleton] at hp
          subst hp
          exact ⟨hpos, hcur⟩
    | looped =>
      rw [hstep] at h
      injection h with e
      cases e
    | next g' =>
      rw [hstep] at h
      exact ih m g' gf hw hdvd h (RunInv_step hw hdvd hstep hinv)

/-- A freshly found guard satisfies the run invariant. -/
theorem RunInv_of_find {m : Map} {g : Guard}
    (hfind : Guard.find m = some g) : RunInv m g := by
  obtain ⟨hv, ho, _, hg⟩ := findGuardAux_spec m.tiles 0 g hfind
  rw [Nat.sub_zero] at hg
  obtain ⟨hlt, he⟩ := List.getElem?_eq_some_iff.mp hg
  refine ⟨hlt, ?_, ?_⟩
  · rw [List.getD_eq_getElem?_getD, hg]
    intro e
    cases e
  · rw [hv]
    intro p hp
    cases hp

/-- On a map with a single guard tile, every in-bounds non-obstacle
index other than the found guard's position holds an Ignored tile. -/
theorem candidate_tile_ignored {m : Map} {base : Guard} {c : Nat}
    (hone : m.tiles.countP isGuardTile = 1)
    (hfind : Guard.find m = some base)
    (hclt : c < m.tiles.length)
    (hcnot : m.tiles.getD c .Ignored ≠ .Occupied)
    (hcne : c ≠ base.position) :
    m.tiles[c]? = some .Ignored := by
  obtain ⟨_, _, _, hbg⟩ := findGuardAux_spec m.tiles 0 base hfind
  rw [Nat.sub_zero] at hbg
  have htc := List.getElem?_eq_getElem hclt
  have hgd : m.tiles.getD c .Ignored = m.tiles[c] := by
    rw [List.getD_eq_getElem?_getD, htc]
    rfl
  cases hval : m.tiles[c] with
  | Ignored => rw [htc, hval]
  | Occupied =>
    rw [hval] at hgd
    exact absurd hgd hcnot
  | Guard d =>
    rw [hval] at htc
    have := countP_one_getElem_unique isGuardTile m.tiles c base.position
      _ _ hone htc (by simp [isGuardTile]) hbg (by simp [isGuardTile])
    exact absurd this hcne

/-- More fuel never changes an already-terminated patrol result. -/
theorem patrolAux_mono :
    ∀ (n n' : Nat) (m : Map) (g : Guard) (r : Except Error Guard),
      patrolAux m n g = some r → n ≤ n' → patrolAux m n' g = some r := by
  intro n
  induction n with
  | zero => intro n' m g r h; cases h
  | succ n ih =>
    intro n' m g r h hle
    cases n' with
    | zero => omega
    | succ n2 =>
      unfold patrolAux at h ⊢
      cases hstep : patrolStep m g with
      | exited g2 => rw [hstep] at h; exact h
      | looped => rw [hstep] at h; exact h
      | next g2 => rw [hstep] at h; exact ih n2 m g2 r h (by omega)

/-- The infinite-loop test holds exactly on the detected-cycle result. -/
theorem isInfiniteLoop_true_iff (o : Option (Except Error Guard)) :
    isInfiniteLoop o = true ↔ o = some (.error .InfiniteLoop) := by
  match o with
  | none => simp [isInfiniteLoop]
  | some (.ok g) => simp [isInfiniteLoop]
  | some (.error e) => cases e <;> simp [isInfiniteLoop]

/-- The loop-search fold: provided every non-start candidate currently
reads Ignored, each trial's occupy-run-restore leaves the map unchanged
and the accumulator counts exactly the loop-producing candidates. -/
theorem countLoops_fold (base : Guard) (fuel : Nat) (m0 : Map) :
    ∀ (cands : List Nat) (acc : Nat),
      (∀ c ∈ cands, c ≠ base.position → m0.tiles[c]? = some .Ignored) →
      cands.foldl
        (fun acc tile =>
          if tile = base.position then acc
          else
            let m' := setTile acc.1 tile .Occupied
            let looped := isInfiniteLoop (patrolAux m' fuel base)
            (setTile m' tile .Ignored, if looped then acc.2 + 1 else acc.2))
        (m0, acc) =
      (m0, acc + (cands.filter (fun c =>
        decide (c ≠ base.position) &&
        isInfiniteLoop (patrolAux (setTile m0 c .Occupied) fuel base))).length) := by
  intro cands
  induction cands with
  | nil => intro acc h; simp
  | cons c cs ih =>
    intro acc h
    rw [List.foldl_cons, List.filter_cons]
    by_cases hc : c = base.position
    · rw [if_pos hc]
      have hpred : (decide (c ≠ base.position) &&
          isInfiniteLoop (patrolAux (setTile m0 c .Occupied) fuel base)) =
          false := by
        simp [hc]
      rw [hpred]
      simp only [Bool.false_eq_true, if_false]
      exact ih acc (fun d hd hne => h d (List.mem_cons_of_mem c hd) hne)
    · rw [if_neg hc]
      have hIgn := h c (List.mem_cons_self c cs) hc
      simp only [setTile_restore m0 c hIgn]
      rw [ih (if isInfiniteLoop
            (patrolAux (setTile m0 c .Occupied) fuel base) = true
          then acc + 1 else acc)
        (fun d hd hne => h d (List.mem_cons_of_mem c hd) hne)]
      have hdec : decide (c ≠ base.position) = true := by simp [hc]
      exact congrArg (Prod.mk m0) (by
        rw [hdec]
        cases hloop : isInfiniteLoop
            (patrolAux (setTile m0 c .Occupied) fuel base) <;>
          (simp
           try omega))

/-- Claim C3: on a rectangular positive-width map whose only guard tile is
the one the loop search finds, a full loop-search call over candidates
drawn from a finished baseline run's visited tiles returns the grid
unchanged: every trial occupies exactly the candidate tile and restores
it, on the looped trials as well as the exiting ones. -/
theorem count_loops_restores_grid (m : Map) (base gf : Guard)
    (n fuel : Nat) (cands : List Nat)
    (hw : 0 < m.width) (hdvd : m.width ∣ m.tiles.length)
    (hone : m.tiles.countP isGuardTile = 1)
    (hfind : Guard.find m = some base)
    (hbase : patrolAux m n base = some (.ok gf))
    (hc : ∀ c ∈ cands, c ∈ gf.visited) :
    ∃ cnt, countLoops cands m fuel = .ok (m, cnt) := by
  have hIgn : ∀ c ∈ cands, c ≠ base.position →
      m.tiles[c]? = some .Ignored := by
    intro c hmem hne
    have hvis := RunInv_patrolAux_ok n m base gf hw hdvd hbase
      (RunInv_of_find hfind) c (hc c hmem)
    exact candidate_tile_ignored hone hfind hvis.1 hvis.2 hne
  have hfold : countLoops cands m fuel = .ok (m, 0 + (cands.filter (fun c =>
      decide (c ≠ base.position) &&
      isInfiniteLoop
        (patrolAux (setTile m c .Occupied) fuel base))).length) := by
    unfold countLoops
    simp only [hfind]
    rw [countLoops_fold base fuel m cands 0 hIgn]
  exact ⟨_, hfold⟩

/-- Claim C4: under the same conditions, the loop search skips candidates
equal to the guard's starting index, runs each remaining trial with a
fresh clone of the found guard on the map with exactly that tile
occupied, and returns the count of candidates whose trial ends in the
detected-cycle condition; for trials given enough fuel to finish, that
fuel-bounded test agrees with unbounded termination in a detected
cycle. -/
theorem count_loops_counts_cycles (m : Map) (base gf : Guard)
    (n fuel : Nat) (cands : List Nat)
    (hw : 0 < m.width) (hdvd : m.width ∣ m.tiles.length)
    (hone : m.tiles.countP isGuardTile = 1)
    (hfind : Guard.find m = some base)
    (hbase : patrolAux m n base = some (.ok gf))
    (hc : ∀ c ∈ cands, c ∈ gf.visited) :
    countLoops cands m fuel =
      .ok (m, (cands.filter (fun c =>
        decide (c ≠ base.position) &&
        isInfiniteLoop
          (patrolAux (setTile m c .Occupied) fuel base))).length) ∧
    ∀ c ∈ cands, c ≠ base.position →
      (patrolAux (setTile m c .Occupied) fuel base).isSome →
      (isInfiniteLoop (patrolAux (setTile m c .Occupied) fuel base) = true ↔
        ∃ k, patrolAux (setTile m c .Occupied) k base =
          some (.error .InfiniteLoop)) := by
  constructor
  · have hIgn : ∀ c ∈ cands, c ≠ base.position →
        m.tiles[c]? = some .Ignored := by
      intro c hmem hne
      have hvis := RunInv_patrolAux_ok n m base gf hw hdvd hbase
        (RunInv_of_find hfind) c (hc c hmem)
      exact candidate_tile_ignored hone hfind hvis.1 hvis.2 hne
    unfold countLoops
    simp only [hfind]
    rw [countLoops_fold base fuel m cands 0 hIgn]
    rw [Nat.zero_add]
  · intro c hmem hne hsome
    constructor
    · intro htrue
      exact ⟨fuel, (isInfiniteLoop_true_iff _).mp htrue⟩
    · rintro ⟨k, hk⟩
      rw [isInfiniteLoop_true_iff]
      rcases Nat.le_total fuel k with hle | hle
      · obtain ⟨r, hr⟩ := Option.isSome_iff_exists.mp hsome
        have hmono := patrolAux_mono fuel k _ base r hr hle
        rw [hk] at hmono
        injection hmono with e
        rw [hr, e]
      · exact patrolAux_mono k fuel _ base _ hk hle

/-- Claim C3 witness: the restoration theorem applied to a concrete 2×1
map whose baseline run visits both tiles. -/
theorem count_loops_restores_grid_witness :
    ∃ cnt, countLoops [1] ⟨[.Guard .Down, .Ignored], 1⟩ 10 =
      .ok (⟨[.Guard .Down, .Ignored], 1⟩, cnt) :=
  count_loops_restores_grid ⟨[.Guard .Down, .Ignored], 1⟩
    ⟨.Down, 0, [], []⟩ ⟨.Down, 1, [0, 1], []⟩ 2 10 [1]
    (by decide) (by decide) (by decide) (by decide) (by rfl) (by decide)

/-- Claim C4 witness: the counting theorem applied to the same 2×1 map
and its single non-start candidate. -/
theorem count_loops_counts_cycles_witness :
    countLoops [1] ⟨[.Guard .Down, .Ignored], 1⟩ 10 =
      .ok (⟨[.Guard .Down, .Ignored], 1⟩, ([1].filter (fun c =>
        decide (c ≠ (Guard.mk .Down 0 [] []).position) &&
        isInfiniteLoop (patrolAux
          (setTile ⟨[.Guard .Down, .Ignored], 1⟩ c .Occupied) 10
          ⟨.Down, 0, [], []⟩))).length) ∧
    ∀ c ∈ [1], c ≠ (Guard.mk .Down 0 [] []).position →
      (patrolAux (setTile ⟨[.Guard .Down, .Ignored], 1⟩ c .Occupied) 10
        ⟨.Down, 0, [], []⟩).isSome →
      (isInfiniteLoop (patrolAux
          (setTile ⟨[.Guard .Down, .Ignored], 1⟩ c .Occupied) 10
          ⟨.Down, 0, [], []⟩) = true ↔
        ∃ k, patrolAux (setTile ⟨[.Guard .Down, .Ignored], 1⟩ c .Occupied)
          k ⟨.Down, 0, [], []⟩ = some (.error .InfiniteLoop)) :=
  count_loops_counts_cycles ⟨[.Guard .Down, .Ignored], 1⟩
    ⟨.Down, 0, [], []⟩ ⟨.Down, 1, [0, 1], []⟩ 2 10 [1]
    (by decide) (by decide) (by decide) (by decide) (by rfl) (by decide)

/-! ### C6: the sample grid -/

/-- Claim C6: on the provided 10×10 sample grid the guard is found at
index 64 (row 6, column 4) facing up; the baseline patrol exits the
grid successfully with exactly 41 distinct visited tiles, and the loop
search over those visited tiles (the starting tile is skipped inside
the search) finds exactly 6 loop-inducing obstacle placements while
returning the grid unchanged. -/
theorem sample_grid_results :
    ∃ sm base gf,
      Map.new testData = .ok sm ∧
      Guard.find sm = some base ∧
      base.position = 64 ∧ base.direction = .Up ∧
      patrolAux sm 100 base = some (.ok gf) ∧
      gf.uniqueVisits.length = 41 ∧
      countLoops gf.uniqueVisits sm 100 = .ok (sm, 6) :=
  ⟨_, _, _, rfl, rfl, rfl, rfl, rfl, rfl, rfl⟩
